import Mathlib

/-!
Shallow embedding of the genie-cli real-time sync / RPC engine.

Source files embedded here:
- `src/api/rpc/RpcHandlerManager.ts` (handler registry, dispatch, reconnect replay)
- `src/api/apiSession.ts` (the session client: versioned metadata / agent-state
  documents, inbound `update` routing, the pending-message queue, the
  conditional-write update loops, and the outbound send paths)

JavaScript `JSON.parse` / `JSON.stringify` on arbitrary values and the zod
`UserMessageSchema.safeParse` are runtime-library functions, not repository
code; they are taken as parameters (`String → Option _`, `_ → Option _`)
wherever the embedded code calls them on opaque payloads, and the wire
encoding of a value that may arrive either as a JSON string or as an
already-parsed object is modelled by the `Wire` type below.  Versions are JS
numbers compared with `<` / `>`; they are modelled as `Int`.
-/

/-! ### JSON.stringify on strings

`JSON.stringify` of the flat object `\x7berror: msg\x7d` (as built by
`RpcHandlerManager.handleRequest`) produces `\x7b"error":E(msg)\x7d` where
`E` is the JSON string encoding; we embed that encoding character by
character. -/

def hexDigit (n : Nat) : Char :=
  if n < 10 then Char.ofNat (48 + n) else Char.ofNat (87 + n)

def jsonEscapeChar (c : Char) : String :=
  if c = '"' then "\\\""
  else if c = '\\' then "\\\\"
  else if c = '\n' then "\\n"
  else if c = '\r' then "\\r"
  else if c = '\t' then "\\t"
  else if c = Char.ofNat 8 then "\\b"
  else if c = Char.ofNat 12 then "\\f"
  else if c.toNat < 32 then
    "\\u00" ++ String.singleton (hexDigit (c.toNat / 16)) ++ String.singleton (hexDigit (c.toNat % 16))
  else String.singleton c

def jsonEncodeString (s : String) : String :=
  "\"" ++ String.join (s.toList.map jsonEscapeChar) ++ "\""

/-- Embeds `JSON.stringify(\x7b error: msg \x7d)`. -/
def stringifyErrorObj (msg : String) : String :=
  "\x7b\"error\":" ++ jsonEncodeString msg ++ "\x7d"

/-! ### RPC handler manager (`RpcHandlerManager.ts`)

A handler receives the parsed params — either a JSON value (when
`JSON.parse(request.params)` succeeded) or the raw params string (when it
threw) — and either returns a result or throws.  A JS throw is either an
`Error` carrying a message or some non-`Error` value. -/

inductive Thrown where
  | jsError (message : String)
  | other
  deriving DecidableEq, Repr

inductive ParamInput (J : Type) where
  | json (v : J)
  | raw (s : String)
  deriving DecidableEq, Repr

/-- Source type `RpcHandler`: `(parsed params) → result | throws`. -/
def HandlerFun (J R : Type) := ParamInput J → Except Thrown R

/-- JS `Map.set`: replace the value of an existing key in place (insertion
order preserved), otherwise append the new binding at the end. -/
def mapSet {H : Type} : List (String × H) → String → H → List (String × H)
  | [], k, v => [(k, v)]
  | (k', v') :: rest, k, v =>
      if k' = k then (k, v) :: rest else (k', v') :: mapSet rest k v

/-- JS `Map.get`: first binding of the key, if any. -/
def mapGet {H : Type} : List (String × H) → String → Option H
  | [], _ => none
  | (k', v') :: rest, k => if k' = k then some v' else mapGet rest k

structure RpcRequest where
  method : String
  params : String

/-- State of one `RpcHandlerManager`: the scope (field `scopePrefix` in the
source), the insertion-ordered handler map, and whether `this.socket` is
non-null. -/
structure RpcManager (J R : Type) where
  scope : String
  handlers : List (String × HandlerFun J R)
  socketLive : Bool

/-- Source method `getPrefixedMethod`. -/
def getPrefixedMethod (m : RpcManager J R) (method : String) : String :=
  m.scope ++ ":" ++ method

/-- Source method `registerHandler`: store under the prefixed key; if a socket is live,
emit `rpc-register` for the prefixed method.  Returns the new state and the
list of method names announced to the transport. -/
def registerHandler (m : RpcManager J R) (method : String) (h : HandlerFun J R) :
    RpcManager J R × List String :=
  let pm := getPrefixedMethod m method
  ({ m with handlers := mapSet m.handlers pm h },
   if m.socketLive then [pm] else [])

/-- The params block of `handleRequest`:
`try \x7b params = JSON.parse(request.params) \x7d catch \x7b params = request.params \x7d`. -/
def parsedParams (parse : String → Option J) (req : RpcRequest) : ParamInput J :=
  match parse req.params with
  | some v => ParamInput.json v
  | none => ParamInput.raw req.params

/-- How `handleRequest` turns the handler's outcome into the response
string: `JSON.stringify(result)` on success; the outer `catch` turns a
thrown `Error` into `\x7berror: error.message\x7d` and any other thrown value
into `\x7berror: 'Unknown error'\x7d`. -/
def respondWith (stringifyResult : R → String) : Except Thrown R → String
  | Except.ok r => stringifyResult r
  | Except.error (Thrown.jsError msg) => stringifyErrorObj msg
  | Except.error Thrown.other => stringifyErrorObj "Unknown error"

/-- Source method `handleRequest`: the whole body sits in a `try`/`catch`, so the result is
always a plain response string (total function).  `parse` stands for
`JSON.parse` on the params string and `stringifyResult` for
`JSON.stringify` of a successful handler result.  The handler map is not
touched; the returned state is the unchanged manager. -/
def handleRequest (parse : String → Option J) (stringifyResult : R → String)
    (m : RpcManager J R) (req : RpcRequest) : String × RpcManager J R :=
  match mapGet m.handlers req.method with
  | none => (stringifyErrorObj "Method not found", m)
  | some h => (respondWith stringifyResult (h (parsedParams parse req)), m)

/-- Source method `onSocketConnect`: remember the socket and emit `rpc-register` for every
known prefixed method, in map (insertion) order. -/
def onSocketConnect (m : RpcManager J R) : RpcManager J R × List String :=
  ({ m with socketLive := true }, m.handlers.map Prod.fst)

/-- Source method `onSocketDisconnect`: drop the socket reference only. -/
def onSocketDisconnect (m : RpcManager J R) : RpcManager J R :=
  { m with socketLive := false }

/-! ### Pending user-message queue (`apiSession.ts`)

`pendingMessages` buffers inbound user messages until `onUserMessage`
attaches a consumer callback; `attached` is whether
`pendingMessageCallback` is non-null. -/

structure MsgQueue (M : Type) where
  pending : List M
  attached : Bool
  deriving DecidableEq, Repr

/-- Client construction leaves `pendingMessages = []` and no callback. -/
def emptyQueue (M : Type) : MsgQueue M := { pending := [], attached := false }

/-- Routing of a successfully-parsed user message inside the socket `update`
handler: deliver to the callback if one is attached, otherwise append to
`pendingMessages`.  Returns the new queue and the messages handed to the
callback by this call. -/
def pushUserMessage (q : MsgQueue M) (msg : M) : MsgQueue M × List M :=
  if q.attached then (q, [msg])
  else ({ q with pending := q.pending ++ [msg] }, [])

/-- The `while (pendingMessages.length > 0) callback(shift())` loop of
`onUserMessage`: repeatedly remove the FRONT element and hand it to the
callback.  Returns (remaining buffer, messages delivered in order). -/
def drainList {M : Type} : List M → List M × List M
  | [] => ([], [])
  | m :: rest =>
      let r := drainList rest
      (r.1, m :: r.2)

/-- Source method `onUserMessage`: install the callback, then drain the buffer through it. -/
def onUserMessage (q : MsgQueue M) : MsgQueue M × List M :=
  let r := drainList q.pending
  ({ pending := r.1, attached := true }, r.2)

/-- A sequence of inbound user messages routed one by one; deliveries are
concatenated in arrival order. -/
def pushAll (q : MsgQueue M) : List M → MsgQueue M × List M
  | [] => (q, [])
  | m :: rest =>
      let s := pushUserMessage q m
      let t := pushAll s.1 rest
      (t.1, s.2 ++ t.2)

/-! ### Inbound `new-message` routing (`socket.on('update')`, `t = 'new-message'`)

The message content is either the legacy wrapper `\x7bt:'encrypted', c:s\x7d`
(whose `c` field is a JSON string holding the actual payload) or a plain
payload.  `parse` stands for `JSON.parse` on the inner string; `parseUser`
for `UserMessageSchema.safeParse` (`some` = success). -/

inductive NewMessageContent (B : Type) where
  | encrypted (c : String)
  | plain (b : B)
  deriving DecidableEq, Repr

inductive RouteOutcome (B M : Type) where
  | droppedFrame
  | delivered (msgs : List M)
  | emittedMessage (b : B)
  deriving DecidableEq, Repr

/-- The routing applied to the unwrapped payload `body`: try the user-message
schema first; on success route to the queue / waiting consumer, otherwise
`emit('message', body)`. -/
def routeBody (parseUser : B → Option M) (q : MsgQueue M) (b : B) :
    MsgQueue M × RouteOutcome B M :=
  match parseUser b with
  | some um =>
      let r := pushUserMessage q um
      (r.1, RouteOutcome.delivered r.2)
  | none => (q, RouteOutcome.emittedMessage b)

/-- The whole `new-message` branch: unwrap the legacy encrypted wrapper if
present (`JSON.parse(content.c)`; a parse failure returns early, dropping
the frame), then route the payload. -/
def handleNewMessage (parse : String → Option B) (parseUser : B → Option M)
    (q : MsgQueue M) : NewMessageContent B → MsgQueue M × RouteOutcome B M
  | NewMessageContent.encrypted c =>
      match parse c with
      | some b => routeBody parseUser q b
      | none => (q, RouteOutcome.droppedFrame)
  | NewMessageContent.plain b => routeBody parseUser q b

/-! ### Versioned documents (`apiSession.ts`)

A document value travels on the wire either as an already-parsed object or
as a JSON string; `JSON.parse` of a malformed string throws.  `Wire`
abstracts `typeof v === 'string' ? JSON.parse(v) : v`:
`obj v` is a non-string value, `goodStr v` a string parsing to `v`, and
`badStr` a string on which `JSON.parse` throws. -/

inductive Wire (α : Type) where
  | obj (v : α)
  | goodStr (v : α)
  | badStr
  deriving DecidableEq, Repr

def parseWire {α : Type} : Wire α → Option α
  | Wire.obj v => some v
  | Wire.goodStr v => some v
  | Wire.badStr => none

/-- The versioned-document slice of `ApiSessionClient` state:
`metadata : Metadata | null`, `metadataVersion`, `agentState : AgentState |
null`, `agentStateVersion`. -/
structure SessionDocs (α β : Type) where
  metadata : Option α
  metadataVersion : Int
  agentState : Option β
  agentStateVersion : Int
  deriving DecidableEq, Repr

/-- The `update-session` metadata branch: guarded by
`metadata.version > this.metadataVersion`; inside the guard the value is
assigned first (`JSON.parse` may throw, caught by the inner `try`) and the
version is assigned only after the value assignment succeeded. -/
def applyMetaPush (s : SessionDocs α β) (version : Int) (w : Wire α) : SessionDocs α β :=
  if s.metadataVersion < version then
    match parseWire w with
    | some v => { s with metadata := some v, metadataVersion := version }
    | none => s
  else s

/-- The `update-session` agentState branch: same guard; a falsy carried
value (`none` here) installs `null`, a string value is parsed inside the
inner `try`, the version again assigned last. -/
def applyStatePush (s : SessionDocs α β) (version : Int) (w : Option (Wire β)) :
    SessionDocs α β :=
  if s.agentStateVersion < version then
    match w with
    | none => { s with agentState := none, agentStateVersion := version }
    | some w' =>
        match parseWire w' with
        | some v => { s with agentState := some v, agentStateVersion := version }
        | none => s
  else s

/-! ### Events touching the versioned documents

One process observes, for each document, two kinds of remote input: the
acknowledgement of its own conditional write (`emitWithAck('update-metadata')`
/ `emitWithAck('update-state')`, with `result` either `success` or
`version-mismatch`) and asynchronous `update-session` pushes.  For the
agent state the carried value may be falsy (`none`), which installs `null`. -/

inductive DocEvent (α β : Type) where
  | metaSuccess (version : Int) (w : Wire α)
  | metaMismatch (version : Int) (w : Wire α)
  | stateSuccess (version : Int) (w : Option (Wire β))
  | stateMismatch (version : Int) (w : Option (Wire β))
  | push (metadata : Option (Int × Wire α)) (agentState : Option (Int × Option (Wire β)))
  deriving DecidableEq, Repr

/-- How the client mutates its local document state on each remote input,
transcribed from `updateMetadata`, `updateAgentState` and the
`update-session` branch of `socket.on('update')`:

* success: value assigned first (a throwing `JSON.parse` aborts the
  statement, leaving both untouched and failing the attempt), then the
  version — unconditionally, no guard;
* version-mismatch: guarded by `answer.version > this.<doc>Version`; inside
  the guard the VERSION is assigned first, so a throwing `JSON.parse` of the
  attached value still leaves the advanced version behind;
* push: `applyMetaPush` then `applyStatePush`, in source order. -/
def stepDoc (s : SessionDocs α β) : DocEvent α β → SessionDocs α β
  | DocEvent.metaSuccess v w =>
      match parseWire w with
      | some m => { s with metadata := some m, metadataVersion := v }
      | none => s
  | DocEvent.metaMismatch v w =>
      if s.metadataVersion < v then
        match parseWire w with
        | some m => { s with metadata := some m, metadataVersion := v }
        | none => { s with metadataVersion := v }
      else s
  | DocEvent.stateSuccess v w =>
      match w with
      | none => { s with agentState := none, agentStateVersion := v }
      | some w' =>
          match parseWire w' with
          | some m => { s with agentState := some m, agentStateVersion := v }
          | none => s
  | DocEvent.stateMismatch v w =>
      if s.agentStateVersion < v then
        match w with
        | none => { s with agentState := none, agentStateVersion := v }
        | some w' =>
            match parseWire w' with
            | some m => { s with agentState := some m, agentStateVersion := v }
            | none => { s with agentStateVersion := v }
      else s
  | DocEvent.push pm ps =>
      let s1 := match pm with
        | some p => applyMetaPush s p.1 p.2
        | none => s
      match ps with
      | some p => applyStatePush s1 p.1 p.2
      | none => s1

def runDocs (s : SessionDocs α β) : List (DocEvent α β) → SessionDocs α β
  | [] => s
  | e :: es => runDocs (stepDoc s e) es

/-- A `success` acknowledgement is "accepted by the remote authority": it
answers a conditional write the client sent with
`expectedVersion = this.<doc>Version`, and the authority returns the version
it advanced that write to, never an older one.  Version-mismatch answers and
pushes may carry anything (the client guards them itself). -/
def acceptedStep (s : SessionDocs α β) : DocEvent α β → Bool
  | DocEvent.metaSuccess v _ => decide (s.metadataVersion ≤ v)
  | DocEvent.stateSuccess v _ => decide (s.agentStateVersion ≤ v)
  | _ => true

def acceptedTrace (s : SessionDocs α β) : List (DocEvent α β) → Bool
  | [] => true
  | e :: es => acceptedStep s e && acceptedTrace (stepDoc s e) es

/-- The metadata versions carried by one remote input. -/
def metaCarried {α β : Type} : DocEvent α β → List Int
  | DocEvent.metaSuccess v _ => [v]
  | DocEvent.metaMismatch v _ => [v]
  | DocEvent.push (some p) _ => [p.1]
  | _ => []

/-- The agent-state versions carried by one remote input. -/
def stateCarried {α β : Type} : DocEvent α β → List Int
  | DocEvent.stateSuccess v _ => [v]
  | DocEvent.stateMismatch v _ => [v]
  | DocEvent.push _ (some p) => [p.1]
  | _ => []

/-! ### The conditional-write loop (`updateMetadata`)

`updateMetadata` wraps one attempt in `backoff`; `backoff`
(`src/utils/time`) is not part of the sources at hand. -/

/-- The focused metadata view of the client inside `updateMetadata`:
`this.metadata` (non-null on this path) and `this.metadataVersion`. -/
structure ClientDoc (α : Type) where
  value : α
  version : Int
  deriving DecidableEq, Repr

/-- Modelled from the spec: the remote relay ("authority for version
numbers", §3/§6, absent from the sources) holds the canonical value and
version; a conditional write whose `expectedVersion` matches is accepted —
the authority installs the candidate, bumps the version, and answers
`success` with the new canonical value and version — otherwise it answers
`version-mismatch` carrying its current version and value. -/
structure Authority (α : Type) where
  value : α
  version : Int
  deriving DecidableEq, Repr

inductive WriteAnswer (α : Type) where
  | success (version : Int) (value : α)
  | mismatch (version : Int) (value : α)
  deriving DecidableEq, Repr

/-- Modelled from the spec: §6 "Conditional write request/response". -/
def Authority.handleWrite (a : Authority α) (expectedVersion : Int) (candidate : α) :
    WriteAnswer α × Authority α :=
  if expectedVersion = a.version then
    (WriteAnswer.success (a.version + 1) candidate,
     { value := candidate, version := a.version + 1 })
  else
    (WriteAnswer.mismatch a.version a.value, a)

/-- One attempt of the `updateMetadata` backoff body, given the answer to
the conditional write: on `success` adopt the answered value and version and
succeed; on `version-mismatch` adopt the attached value/version when the
attached version is newer, then throw (`false` = the attempt failed and
`backoff` will retry). -/
def attemptUpdateMetadata (c : ClientDoc α) (answer : WriteAnswer α) :
    ClientDoc α × Bool :=
  match answer with
  | WriteAnswer.success v m => ({ value := m, version := v }, true)
  | WriteAnswer.mismatch v m =>
      (if c.version < v then { value := m, version := v } else c, false)

/-- Modelled from the spec: `backoff` (§2, §9) re-runs the attempt until it
succeeds; here with explicit fuel.  Each attempt re-reads the current local
value, applies the mutator, and sends a conditional write with
`expectedVersion = ` the current local version, exactly as the `backoff`
body of `updateMetadata` does. -/
def updateMetadataRun (f : α → α) : Nat → ClientDoc α → Authority α →
    ClientDoc α × Authority α × Bool
  | 0, c, a => (c, a, false)
  | Nat.succ fuel, c, a =>
      let candidate := f c.value
      let r := a.handleWrite c.version candidate
      let step := attemptUpdateMetadata c r.1
      if step.2 then (step.1, r.2, true)
      else updateMetadataRun f fuel step.1 r.2

/-! ### Outbound best-effort sends (`apiSession.ts`)

What each send method does with the socket, as a function of
`this.socket.connected`.  `droppedWithLog` is the early `return` after a
debug log; `emit ev` is `socket.emit(ev, ...)` (socket.io buffers such
packets while disconnected and flushes them on reconnect); `volatileEmit ev`
is `socket.volatile.emit(ev, ...)` (the transport discards the packet when
it cannot be sent right away). -/

inductive SendAction where
  | droppedWithLog
  | emit (event : String)
  | volatileEmit (event : String)
  deriving DecidableEq, Repr

/-- Source method `sendClaudeSessionMessage`: `if (!this.socket.connected) \x7b log; return \x7d`
then `socket.emit('message', ...)`. -/
def sendClaudeSessionMessage (connected : Bool) : SendAction :=
  if connected then SendAction.emit "message" else SendAction.droppedWithLog

/-- Source method `sendCodexMessage`: same connected guard, then `socket.emit('message', ...)`. -/
def sendCodexMessage (connected : Bool) : SendAction :=
  if connected then SendAction.emit "message" else SendAction.droppedWithLog

/-- Source method `sendAgentMessage`: no connected guard at all — always
`socket.emit('message', ...)`. -/
def sendAgentMessage (_connected : Bool) : SendAction :=
  SendAction.emit "message"

/-- Source method `sendUsageData`: no connected guard — always
`socket.emit('usage-report', ...)`. -/
def sendUsageData (_connected : Bool) : SendAction :=
  SendAction.emit "usage-report"

/-- Source method `keepAlive`: always `socket.volatile.emit('session-alive', ...)`. -/
def keepAlive (_connected : Bool) : SendAction :=
  SendAction.volatileEmit "session-alive"

/-! ### Concrete fixtures used to exercise the embedding -/

/-- A concrete session-document state. -/
def sessW : SessionDocs Nat Nat :=
  { metadata := some 0, metadataVersion := 0, agentState := some 0, agentStateVersion := 0 }

/-- A concrete remote-input trace: an accepted write, a push updating both
documents, a mismatch answer whose attached agent state fails to parse, and
a stale mismatch answer. -/
def traceW : List (DocEvent Nat Nat) :=
  [DocEvent.metaSuccess 1 (Wire.obj 5),
   DocEvent.push (some (3, Wire.goodStr 7)) (some (2, none)),
   DocEvent.stateMismatch 4 (some Wire.badStr),
   DocEvent.metaMismatch 2 (Wire.obj 9)]

/-- A concrete RPC handler. -/
def hW : HandlerFun Nat Nat := fun _ => Except.ok 0

/-- A concrete RPC manager with two registered handlers and a live socket. -/
def mgrW : RpcManager Nat Nat :=
  { scope := "s1", handlers := [("s1:a", hW), ("s1:b", hW)], socketLive := true }

/-! ## Supporting lemmas -/

theorem drainList_eq {M : Type} (l : List M) : drainList l = ([], l) := by
  induction l with
  | nil => rfl
  | cons m rest ih => simp [drainList, ih]

theorem onUserMessage_eq {M : Type} (q : MsgQueue M) :
    onUserMessage q = ({ pending := [], attached := true }, q.pending) := by
  simp [onUserMessage, drainList_eq]

theorem pushAll_unattached {M : Type} (ms : List M) (q : MsgQueue M)
    (h : q.attached = false) :
    pushAll q ms = ({ pending := q.pending ++ ms, attached := false }, []) := by
  induction ms generalizing q with
  | nil => simp [pushAll, ← h]
  | cons m rest ih =>
      simp only [pushAll, pushUserMessage, h, if_false, Bool.false_eq_true]
      rw [ih { pending := q.pending ++ [m], attached := false } rfl]
      simp

theorem pushAll_attached {M : Type} (ms : List M) (q : MsgQueue M)
    (h : q.attached = true) :
    pushAll q ms = (q, ms) := by
  induction ms with
  | nil => simp [pushAll]
  | cons m rest ih => simp [pushAll, pushUserMessage, h, ih]

/-! ## Claims -/

/-- C3: `handleRequest` never throws across the boundary: a missing method
produces exactly the JSON string `\x7b"error":"Method not found"\x7d` and
leaves the handler map unchanged; a handler that throws an `Error` produces
a JSON object whose `error` field is the thrown message, a non-`Error`
throw produces `error: "Unknown error"`, and in every case the fault is
converted into a returned response string rather than propagated. -/
theorem C3_handleRequest_fault_boundary {J R : Type}
    (parse : String → Option J) (stringifyResult : R → String)
    (m : RpcManager J R) (req : RpcRequest) :
    (mapGet m.handlers req.method = none →
      handleRequest parse stringifyResult m req =
        ("\x7b\"error\":\"Method not found\"\x7d", m)) ∧
    (∀ h, mapGet m.handlers req.method = some h →
      ∀ msg, h (parsedParams parse req) = Except.error (Thrown.jsError msg) →
        handleRequest parse stringifyResult m req = (stringifyErrorObj msg, m)) ∧
    (∀ h, mapGet m.handlers req.method = some h →
      h (parsedParams parse req) = Except.error Thrown.other →
        handleRequest parse stringifyResult m req =
          (stringifyErrorObj "Unknown error", m)) := by
  refine ⟨?_, ?_, ?_⟩
  · intro hmiss
    have : stringifyErrorObj "Method not found" =
        "\x7b\"error\":\"Method not found\"\x7d" := by decide
    simp [handleRequest, hmiss, this]
  · intro h hhit msg hthrow
    simp [handleRequest, hhit, respondWith, hthrow]
  · intro h hhit hthrow
    simp [handleRequest, hhit, respondWith, hthrow]

theorem C3_witness :
    (mapGet ([] : List (String × HandlerFun Nat Nat)) "s1:unknownMethod" = none) ∧
    handleRequest (J := Nat) (R := Nat) (fun _ => none) (fun _ => "0")
        { scope := "s1", handlers := [], socketLive := true }
        { method := "s1:unknownMethod", params := "p" } =
      ("\x7b\"error\":\"Method not found\"\x7d",
       { scope := "s1", handlers := [], socketLive := true }) :=
  ⟨rfl,
   (C3_handleRequest_fault_boundary (fun _ => none) (fun _ => "0")
      { scope := "s1", handlers := [], socketLive := true }
      { method := "s1:unknownMethod", params := "p" }).1 rfl⟩

/-- C9: on a handler hit, `handleRequest` feeds the handler
`JSON.parse(request.params)` when that parse succeeds and the raw params
string unchanged when it fails; malformed params are passed through rather
than rejected, and by themselves never produce an error response — the
response is entirely determined by the handler's outcome on the raw
string. -/
theorem C9_params_passthrough {J R : Type}
    (parse : String → Option J) (stringifyResult : R → String)
    (m : RpcManager J R) (req : RpcRequest) :
    (∀ h v, mapGet m.handlers req.method = some h → parse req.params = some v →
      handleRequest parse stringifyResult m req =
        (respondWith stringifyResult (h (ParamInput.json v)), m)) ∧
    (∀ h, mapGet m.handlers req.method = some h → parse req.params = none →
      handleRequest parse stringifyResult m req =
        (respondWith stringifyResult (h (ParamInput.raw req.params)), m)) ∧
    (∀ h r, mapGet m.handlers req.method = some h → parse req.params = none →
      h (ParamInput.raw req.params) = Except.ok r →
        handleRequest parse stringifyResult m req = (stringifyResult r, m)) := by
  refine ⟨?_, ?_, ?_⟩
  · intro h v hhit hparse
    simp [handleRequest, hhit, parsedParams, hparse]
  · intro h hhit hparse
    simp [handleRequest, hhit, parsedParams, hparse]
  · intro h r hhit hparse hok
    simp [handleRequest, hhit, parsedParams, hparse, hok, respondWith]

theorem C9_witness :
    ((fun _ => none : String → Option Nat) "notjson" = none) ∧
    handleRequest (fun _ => none) (fun n : Nat => toString n)
        { scope := "s1", handlers := [("s1:echo", (fun _ => Except.ok 7 : HandlerFun Nat Nat))], socketLive := true }
        { method := "s1:echo", params := "notjson" }
      = ("7", { scope := "s1", handlers := [("s1:echo", (fun _ => Except.ok 7 : HandlerFun Nat Nat))],
                socketLive := true }) :=
  ⟨rfl,
   (C9_params_passthrough (fun _ => none) (fun n : Nat => toString n)
      { scope := "s1", handlers := [("s1:echo", (fun _ => Except.ok 7 : HandlerFun Nat Nat))], socketLive := true }
      { method := "s1:echo", params := "notjson" }).2.2
     (fun _ => Except.ok 7 : HandlerFun Nat Nat) 7 rfl rfl rfl⟩

/-- C4: messages pushed before a consumer attaches are buffered without
delivery, in arrival order; attaching via `onUserMessage` hands the whole
buffer to the callback in that exact FIFO order and empties it; every
message arriving once attached is handed to the callback immediately, the
buffer staying empty — nothing is dropped, duplicated or reordered. -/
theorem C4_queue_fifo {M : Type} (ms ms2 : List M) :
    (pushAll (emptyQueue M) ms).2 = [] ∧
    (pushAll (emptyQueue M) ms).1 = { pending := ms, attached := false } ∧
    (onUserMessage (pushAll (emptyQueue M) ms).1).2 = ms ∧
    (onUserMessage (pushAll (emptyQueue M) ms).1).1 =
      { pending := [], attached := true } ∧
    pushAll { pending := ([] : List M), attached := true } ms2 =
      ({ pending := ([] : List M), attached := true }, ms2) := by
  have h1 := pushAll_unattached ms (emptyQueue M) rfl
  refine ⟨by simp [h1], by simpa [emptyQueue] using congrArg Prod.fst h1, ?_, ?_, ?_⟩
  · rw [h1, onUserMessage_eq]; simp [emptyQueue]
  · rw [h1, onUserMessage_eq]
  · exact pushAll_attached ms2 _ rfl

/-- C7: an inbound `new-message` whose content is the legacy encrypted
wrapper with inner JSON string `c` is routed exactly as the payload encoded
by `c` would be routed directly (same queue state, same user-message
delivery or generic emission); if `JSON.parse(c)` fails, the frame is
discarded — queue unchanged, no delivery, no emission, no error. -/
theorem C7_encrypted_unwrap {B M : Type} (parse : String → Option B)
    (parseUser : B → Option M) (q : MsgQueue M) (c : String) :
    (∀ b, parse c = some b →
      handleNewMessage parse parseUser q (NewMessageContent.encrypted c) =
        handleNewMessage parse parseUser q (NewMessageContent.plain b)) ∧
    (parse c = none →
      handleNewMessage parse parseUser q (NewMessageContent.encrypted c) =
        (q, RouteOutcome.droppedFrame)) := by
  constructor
  · intro b hb
    simp [handleNewMessage, hb]
  · intro hb
    simp [handleNewMessage, hb]

theorem C7_witness :
    ((fun s => if s = "ok" then some 1 else none : String → Option Nat) "ok" = some 1) ∧
    handleNewMessage (fun s => if s = "ok" then some 1 else none)
        (fun b => if b = 1 then some 10 else none) (emptyQueue Nat)
        (NewMessageContent.encrypted "ok")
      = handleNewMessage (fun s => if s = "ok" then some 1 else none)
          (fun b => if b = 1 then some 10 else none) (emptyQueue Nat)
          (NewMessageContent.plain 1) ∧
    ((fun s => if s = "ok" then some 1 else none : String → Option Nat) "bad" = none) ∧
    handleNewMessage (fun s => if s = "ok" then some 1 else none)
        (fun b => if b = 1 then some 10 else none) (emptyQueue Nat)
        (NewMessageContent.encrypted "bad")
      = (emptyQueue Nat, RouteOutcome.droppedFrame) :=
  ⟨rfl,
   (C7_encrypted_unwrap (fun s => if s = "ok" then some 1 else none)
      (fun b => if b = 1 then some 10 else none) (emptyQueue Nat) "ok").1 1 rfl,
   rfl,
   (C7_encrypted_unwrap (fun s => if s = "ok" then some 1 else none)
      (fun b => if b = 1 then some 10 else none) (emptyQueue Nat) "bad").2 rfl⟩

/-- C8 counterexample: the claim says `sendAgentMessage` and `sendUsageData`
are silently dropped while the connection is down; in the source neither
checks `socket.connected` — with `connected = false` both still call
`socket.emit`, refuting the claim at this concrete input. -/
theorem C8_counterexample :
    sendAgentMessage false = SendAction.emit "message" ∧
    sendAgentMessage false ≠ SendAction.droppedWithLog ∧
    sendUsageData false = SendAction.emit "usage-report" ∧
    sendUsageData false ≠ SendAction.droppedWithLog := by
  refine ⟨rfl, by decide, rfl, by decide⟩

/-- C8 amended: while disconnected, `sendClaudeSessionMessage` and
`sendCodexMessage` silently drop the message with only a local log entry;
`keepAlive` always uses a volatile emit, which the transport discards when
it cannot deliver immediately; `sendAgentMessage` and `sendUsageData` call
`socket.emit` unconditionally (the packet is buffered by the socket library
while disconnected rather than dropped by client code).  None of these
paths raises an error to the caller, and conditional document writes are
retried (an initial version mismatch still ends in a successful commit)
rather than dropped. -/
theorem C8_amended_sends :
    sendClaudeSessionMessage false = SendAction.droppedWithLog ∧
    sendCodexMessage false = SendAction.droppedWithLog ∧
    (∀ c, keepAlive c = SendAction.volatileEmit "session-alive") ∧
    (∀ c, sendAgentMessage c = SendAction.emit "message") ∧
    (∀ c, sendUsageData c = SendAction.emit "usage-report") ∧
    sendClaudeSessionMessage true = SendAction.emit "message" ∧
    sendCodexMessage true = SendAction.emit "message" ∧
    (∀ (f : Nat → Nat) (m v : Nat),
      (updateMetadataRun f 2 { value := m, version := 5 }
        { value := v, version := 7 }).2.2 = true) :=
  ⟨rfl, rfl, fun _ => rfl, fun _ => rfl, fun _ => rfl, rfl, rfl, fun _ _ _ => rfl⟩

/-- C5 counterexample: the claim's "if and only if" fails on a push whose
carried version is strictly greater than the local version but whose value
does not JSON-parse: at metadata version 0, a push carrying version 1 with
an unparseable value leaves the state completely unchanged. -/
theorem C5_counterexample :
    (({ metadata := some 0, metadataVersion := 0, agentState := none,
        agentStateVersion := 0 } : SessionDocs Nat Nat).metadataVersion < 1) ∧
    stepDoc ({ metadata := some 0, metadataVersion := 0, agentState := none,
               agentStateVersion := 0 } : SessionDocs Nat Nat)
        (DocEvent.push (some (1, Wire.badStr)) none)
      = { metadata := some 0, metadataVersion := 0, agentState := none,
          agentStateVersion := 0 } := by
  exact ⟨by decide, by decide⟩

/-- C5 amended: an inbound `update-session` push mutates the local metadata
(resp. agentState) document and its version iff the carried version is
strictly greater than the locally known version AND the carried value is
installable (it JSON-parses; for agentState a falsy value installs `null`);
a push with version equal or less, or whose value fails to parse, leaves
both the value and the version unchanged. -/
theorem C5_push_version_guard {α β : Type} (s : SessionDocs α β) (v : Int) (w : Wire α) :
    (v ≤ s.metadataVersion → applyMetaPush s v w = s) ∧
    (s.metadataVersion < v → ∀ m, parseWire w = some m →
      applyMetaPush s v w = { s with metadata := some m, metadataVersion := v }) ∧
    (parseWire w = none → applyMetaPush s v w = s) ∧
    (∀ ws : Option (Wire β), v ≤ s.agentStateVersion → applyStatePush s v ws = s) ∧
    (s.agentStateVersion < v →
      applyStatePush s v (none : Option (Wire β))
        = { s with agentState := none, agentStateVersion := v }) ∧
    (s.agentStateVersion < v → ∀ (w' : Wire β) m, parseWire w' = some m →
      applyStatePush s v (some w')
        = { s with agentState := some m, agentStateVersion := v }) ∧
    (∀ w' : Wire β, parseWire w' = none → applyStatePush s v (some w') = s) := by
  refine ⟨?_, ?_, ?_, ?_, ?_, ?_, ?_⟩
  · intro h
    unfold applyMetaPush
    rw [if_neg (by omega)]
  · intro h m hm
    unfold applyMetaPush
    rw [if_pos h, hm]
  · intro h
    unfold applyMetaPush
    rw [h]
    split <;> rfl
  · intro ws h
    unfold applyStatePush
    rw [if_neg (by omega)]
  · intro h
    unfold applyStatePush
    rw [if_pos h]
  · intro h w' m hm
    unfold applyStatePush
    rw [if_pos h]
    simp [hm]
  · intro w' h
    simp [applyStatePush, h]

theorem C5_witness :
    ((1 : Int) ≤ 5) ∧
    applyMetaPush
        ({ metadata := some 0, metadataVersion := 5, agentState := none,
           agentStateVersion := 0 } : SessionDocs Nat Nat) 1 (Wire.obj 9)
      = { metadata := some 0, metadataVersion := 5, agentState := none,
          agentStateVersion := 0 } ∧
    ((2 : Int) < 7) ∧ parseWire (Wire.goodStr 9) = some 9 ∧
    applyMetaPush
        ({ metadata := some 0, metadataVersion := 2, agentState := none,
           agentStateVersion := 0 } : SessionDocs Nat Nat) 7 (Wire.goodStr 9)
      = { metadata := some 9, metadataVersion := 7, agentState := none,
          agentStateVersion := 0 } :=
  ⟨by decide,
   (C5_push_version_guard (β := Nat)
      { metadata := some 0, metadataVersion := 5, agentState := none,
        agentStateVersion := 0 } 1 (Wire.obj 9)).1 (by decide),
   by decide, rfl,
   (C5_push_version_guard (β := Nat)
      { metadata := some 0, metadataVersion := 2, agentState := none,
        agentStateVersion := 0 } 7 (Wire.goodStr 9)).2.1 (by decide) 9 rfl⟩

/-- C10: applying an `update-session` push is atomic per document — if
JSON-parsing the carried metadata (resp. agentState) value throws, neither
the document value nor its version is modified, because the version is
assigned only after the value assignment succeeded; a push whose two
carried values both fail to parse leaves the whole state untouched. -/
theorem C10_push_parse_atomic {α β : Type} (s : SessionDocs α β) (v v2 : Int)
    (w : Wire α) (w' : Wire β) :
    (parseWire w = none → applyMetaPush s v w = s) ∧
    (parseWire w' = none → applyStatePush s v2 (some w') = s) ∧
    (parseWire w = none → parseWire w' = none →
      stepDoc s (DocEvent.push (some (v, w)) (some (v2, some w'))) = s) := by
  refine ⟨?_, ?_, ?_⟩
  · intro h
    unfold applyMetaPush
    rw [h]
    split <;> rfl
  · intro h
    simp [applyStatePush, h]
  · intro h h'
    show applyStatePush (applyMetaPush s v w) v2 (some w') = s
    have e1 : applyMetaPush s v w = s := by
      unfold applyMetaPush
      rw [h]
      split <;> rfl
    rw [e1]
    simp [applyStatePush, h']

theorem C10_witness :
    parseWire (Wire.badStr : Wire Nat) = none ∧
    applyMetaPush sessW 6 Wire.badStr = sessW ∧
    applyStatePush sessW 6 (some Wire.badStr) = sessW ∧
    stepDoc sessW (DocEvent.push (some (6, Wire.badStr)) (some (6, some Wire.badStr)))
      = sessW :=
  ⟨rfl,
   (C10_push_parse_atomic sessW 6 6 Wire.badStr Wire.badStr).1 rfl,
   (C10_push_parse_atomic sessW 6 6 Wire.badStr Wire.badStr).2.1 rfl,
   (C10_push_parse_atomic sessW 6 6 Wire.badStr Wire.badStr).2.2 rfl rfl⟩

theorem applyMetaPush_agent_fields {α β : Type} (s : SessionDocs α β) (v : Int)
    (w : Wire α) :
    (applyMetaPush s v w).agentState = s.agentState ∧
    (applyMetaPush s v w).agentStateVersion = s.agentStateVersion := by
  unfold applyMetaPush
  split
  · rcases hp : parseWire w with _ | m <;> simp [hp]
  · simp

theorem applyStatePush_meta_fields {α β : Type} (s : SessionDocs α β) (v : Int)
    (w : Option (Wire β)) :
    (applyStatePush s v w).metadata = s.metadata ∧
    (applyStatePush s v w).metadataVersion = s.metadataVersion := by
  unfold applyStatePush
  split
  · rcases w with _ | w'
    · simp
    · rcases hp : parseWire w' with _ | m <;> simp [hp]
  · simp

theorem applyMetaPush_version_mono {α β : Type} (s : SessionDocs α β) (v : Int)
    (w : Wire α) :
    s.metadataVersion ≤ (applyMetaPush s v w).metadataVersion := by
  unfold applyMetaPush
  split
  · rcases hp : parseWire w with _ | m <;> (simp [hp]; try omega)
  · simp

theorem applyStatePush_version_mono {α β : Type} (s : SessionDocs α β) (v : Int)
    (w : Option (Wire β)) :
    s.agentStateVersion ≤ (applyStatePush s v w).agentStateVersion := by
  unfold applyStatePush
  split
  · rcases w with _ | w'
    · simp; omega
    · rcases hp : parseWire w' with _ | m <;> (simp [hp]; try omega)
  · simp

theorem applyMetaPush_version_cases {α β : Type} (s : SessionDocs α β) (v : Int)
    (w : Wire α) :
    (applyMetaPush s v w).metadataVersion = s.metadataVersion ∨
    (applyMetaPush s v w).metadataVersion = v := by
  unfold applyMetaPush
  split
  · rcases hp : parseWire w with _ | m <;> simp [hp]
  · simp

theorem applyStatePush_version_cases {α β : Type} (s : SessionDocs α β) (v : Int)
    (w : Option (Wire β)) :
    (applyStatePush s v w).agentStateVersion = s.agentStateVersion ∨
    (applyStatePush s v w).agentStateVersion = v := by
  unfold applyStatePush
  split
  · rcases w with _ | w'
    · simp
    · rcases hp : parseWire w' with _ | m <;> simp [hp]
  · simp


theorem stepDoc_meta_mono {α β : Type} (s : SessionDocs α β) (e : DocEvent α β)
    (h : acceptedStep s e = true) :
    s.metadataVersion ≤ (stepDoc s e).metadataVersion := by
  cases e with
  | metaSuccess v w =>
      have hv : s.metadataVersion ≤ v := by simpa [acceptedStep] using h
      simp only [stepDoc]
      rcases hp : parseWire w with _ | m
      · simp [hp]
      · simpa [hp] using hv
  | metaMismatch v w =>
      simp only [stepDoc]
      by_cases hlt : s.metadataVersion < v
      · rcases hp : parseWire w with _ | m
        · simp only [if_pos hlt, hp]
          omega
        · simp only [if_pos hlt, hp]
          omega
      · simp [if_neg hlt]
  | stateSuccess v w =>
      simp only [stepDoc]
      rcases w with _ | w'
      · simp
      · rcases hp : parseWire w' with _ | m
        · simp [hp]
        · simp [hp]
  | stateMismatch v w =>
      simp only [stepDoc]
      by_cases hlt : s.agentStateVersion < v
      · rcases w with _ | w'
        · simp [if_pos hlt]
        · rcases hp : parseWire w' with _ | m
          · simp [if_pos hlt, hp]
          · simp [if_pos hlt, hp]
      · simp [if_neg hlt]
  | push pm ps =>
      simp only [stepDoc]
      rcases pm with _ | p <;> rcases ps with _ | p2
      · simp
      · simp [(applyStatePush_meta_fields s p2.1 p2.2).2]
      · simp only []
        exact applyMetaPush_version_mono s p.1 p.2
      · simp only []
        rw [(applyStatePush_meta_fields (applyMetaPush s p.1 p.2) p2.1 p2.2).2]
        exact applyMetaPush_version_mono s p.1 p.2

theorem stepDoc_state_mono {α β : Type} (s : SessionDocs α β) (e : DocEvent α β)
    (h : acceptedStep s e = true) :
    s.agentStateVersion ≤ (stepDoc s e).agentStateVersion := by
  cases e with
  | metaSuccess v w =>
      simp only [stepDoc]
      rcases hp : parseWire w with _ | m
      · simp [hp]
      · simp [hp]
  | metaMismatch v w =>
      simp only [stepDoc]
      by_cases hlt : s.metadataVersion < v
      · rcases hp : parseWire w with _ | m
        · simp [if_pos hlt, hp]
        · simp [if_pos hlt, hp]
      · simp [if_neg hlt]
  | stateSuccess v w =>
      have hv : s.agentStateVersion ≤ v := by simpa [acceptedStep] using h
      simp only [stepDoc]
      rcases w with _ | w'
      · simpa using hv
      · rcases hp : parseWire w' with _ | m
        · simp [hp]
        · simpa [hp] using hv
  | stateMismatch v w =>
      simp only [stepDoc]
      by_cases hlt : s.agentStateVersion < v
      · rcases w with _ | w'
        · simp only [if_pos hlt]
          omega
        · rcases hp : parseWire w' with _ | m
          · simp only [if_pos hlt, hp]
            omega
          · simp only [if_pos hlt, hp]
            omega
      · simp [if_neg hlt]
  | push pm ps =>
      simp only [stepDoc]
      rcases pm with _ | p <;> rcases ps with _ | p2
      · simp
      · simp only []
        exact applyStatePush_version_mono s p2.1 p2.2
      · simp [(applyMetaPush_agent_fields s p.1 p.2).2]
      · simp only []
        calc s.agentStateVersion
            = (applyMetaPush s p.1 p.2).agentStateVersion :=
              (applyMetaPush_agent_fields s p.1 p.2).2.symm
          _ ≤ (applyStatePush (applyMetaPush s p.1 p.2) p2.1 p2.2).agentStateVersion :=
              applyStatePush_version_mono (applyMetaPush s p.1 p.2) p2.1 p2.2

theorem runDocs_meta_mono {α β : Type} (s : SessionDocs α β)
    (tr : List (DocEvent α β)) (h : acceptedTrace s tr = true) :
    s.metadataVersion ≤ (runDocs s tr).metadataVersion := by
  induction tr generalizing s with
  | nil => simp [runDocs]
  | cons e es ih =>
      rw [acceptedTrace, Bool.and_eq_true] at h
      exact le_trans (stepDoc_meta_mono s e h.1) (ih (stepDoc s e) h.2)

theorem runDocs_state_mono {α β : Type} (s : SessionDocs α β)
    (tr : List (DocEvent α β)) (h : acceptedTrace s tr = true) :
    s.agentStateVersion ≤ (runDocs s tr).agentStateVersion := by
  induction tr generalizing s with
  | nil => simp [runDocs]
  | cons e es ih =>
      rw [acceptedTrace, Bool.and_eq_true] at h
      exact le_trans (stepDoc_state_mono s e h.1) (ih (stepDoc s e) h.2)

theorem stepDoc_meta_carried {α β : Type} (s : SessionDocs α β) (e : DocEvent α β) :
    (stepDoc s e).metadataVersion = s.metadataVersion ∨
    (stepDoc s e).metadataVersion ∈ metaCarried e := by
  cases e with
  | metaSuccess v w =>
      simp only [stepDoc, metaCarried]
      rcases hp : parseWire w with _ | m
      · simp [hp]
      · simp [hp]
  | metaMismatch v w =>
      simp only [stepDoc, metaCarried]
      by_cases hlt : s.metadataVersion < v
      · rcases hp : parseWire w with _ | m
        · simp [if_pos hlt, hp]
        · simp [if_pos hlt, hp]
      · simp [if_neg hlt]
  | stateSuccess v w =>
      simp only [stepDoc, metaCarried]
      rcases w with _ | w'
      · simp
      · rcases hp : parseWire w' with _ | m
        · simp [hp]
        · simp [hp]
  | stateMismatch v w =>
      simp only [stepDoc, metaCarried]
      by_cases hlt : s.agentStateVersion < v
      · rcases w with _ | w'
        · simp [if_pos hlt]
        · rcases hp : parseWire w' with _ | m
          · simp [if_pos hlt, hp]
          · simp [if_pos hlt, hp]
      · simp [if_neg hlt]
  | push pm ps =>
      simp only [stepDoc, metaCarried]
      rcases pm with _ | p <;> rcases ps with _ | p2
      · simp
      · simp [(applyStatePush_meta_fields s p2.1 p2.2).2]
      · simpa using applyMetaPush_version_cases s p.1 p.2
      · simp only []
        rw [(applyStatePush_meta_fields (applyMetaPush s p.1 p.2) p2.1 p2.2).2]
        simpa using applyMetaPush_version_cases s p.1 p.2

theorem stepDoc_state_carried {α β : Type} (s : SessionDocs α β) (e : DocEvent α β) :
    (stepDoc s e).agentStateVersion = s.agentStateVersion ∨
    (stepDoc s e).agentStateVersion ∈ stateCarried e := by
  cases e with
  | metaSuccess v w =>
      simp only [stepDoc, stateCarried]
      rcases hp : parseWire w with _ | m
      · simp [hp]
      · simp [hp]
  | metaMismatch v w =>
      simp only [stepDoc, stateCarried]
      by_cases hlt : s.metadataVersion < v
      · rcases hp : parseWire w with _ | m
        · simp [if_pos hlt, hp]
        · simp [if_pos hlt, hp]
      · simp [if_neg hlt]
  | stateSuccess v w =>
      simp only [stepDoc, stateCarried]
      rcases w with _ | w'
      · simp
      · rcases hp : parseWire w' with _ | m
        · simp [hp]
        · simp [hp]
  | stateMismatch v w =>
      simp only [stepDoc, stateCarried]
      by_cases hlt : s.agentStateVersion < v
      · rcases w with _ | w'
        · simp [if_pos hlt]
        · rcases hp : parseWire w' with _ | m
          · simp [if_pos hlt, hp]
          · simp [if_pos hlt, hp]
      · simp [if_neg hlt]
  | push pm ps =>
      simp only [stepDoc, stateCarried]
      rcases pm with _ | p <;> rcases ps with _ | p2
      · simp
      · simpa using applyStatePush_version_cases s p2.1 p2.2
      · simp [(applyMetaPush_agent_fields s p.1 p.2).2]
      · simp only []
        rcases applyStatePush_version_cases (applyMetaPush s p.1 p.2) p2.1 p2.2 with hc | hc
        · rw [hc, (applyMetaPush_agent_fields s p.1 p.2).2]
          simp
        · rw [hc]
          simp

/-- C1: over any sequence of remote inputs in which every `success`
acknowledgement comes from the authority (carrying a version no older than
the local one it answers), both `metadataVersion` and `agentStateVersion`
are non-decreasing; and at every single step each version either stays
unchanged or moves exactly to a version value carried in that response or
push — it is never incremented locally. -/
theorem C1_versions_monotone {α β : Type} (s : SessionDocs α β)
    (tr : List (DocEvent α β)) (h : acceptedTrace s tr = true) :
    (s.metadataVersion ≤ (runDocs s tr).metadataVersion ∧
     s.agentStateVersion ≤ (runDocs s tr).agentStateVersion) ∧
    (∀ (s' : SessionDocs α β) (e : DocEvent α β),
      ((stepDoc s' e).metadataVersion = s'.metadataVersion ∨
        (stepDoc s' e).metadataVersion ∈ metaCarried e) ∧
      ((stepDoc s' e).agentStateVersion = s'.agentStateVersion ∨
        (stepDoc s' e).agentStateVersion ∈ stateCarried e)) :=
  ⟨⟨runDocs_meta_mono s tr h, runDocs_state_mono s tr h⟩,
   fun s' e => ⟨stepDoc_meta_carried s' e, stepDoc_state_carried s' e⟩⟩

theorem C1_witness :
    acceptedTrace sessW traceW = true ∧
    (sessW.metadataVersion ≤ (runDocs sessW traceW).metadataVersion ∧
     sessW.agentStateVersion ≤ (runDocs sessW traceW).agentStateVersion) :=
  ⟨by decide, (C1_versions_monotone sessW traceW (by decide)).1⟩

/-- C2: when a conditional write gets a `version-mismatch` answer carrying a
version strictly newer than the local one, the engine adopts the attached
value and version and fails the attempt so the retry primitive re-runs the
whole mutate-and-send cycle on the adopted base; concretely, starting at
local version 5 against an authority at version 7, the first attempt gets
`version-mismatch` (version 7 plus the authority's value), the retry then
gets `success` with version 8, leaving final local version 8 and the
mutator's change applied on top of the version-7 value. -/
theorem C2_mismatch_adopt_retry {α : Type} (f : α → α) (m5 v7 : α) :
    (∀ (c : ClientDoc α) (v : Int) (m : α), c.version < v →
      attemptUpdateMetadata c (WriteAnswer.mismatch v m)
        = ({ value := m, version := v }, false)) ∧
    updateMetadataRun f 2 { value := m5, version := 5 } { value := v7, version := 7 }
      = ({ value := f v7, version := 8 }, { value := f v7, version := 8 }, true) := by
  constructor
  · intro c v m hv
    simp [attemptUpdateMetadata, if_pos hv]
  · rfl

theorem C2_witness :
    ((5 : Int) < 7) ∧
    attemptUpdateMetadata ({ value := 0, version := 5 } : ClientDoc Nat)
        (WriteAnswer.mismatch 7 42)
      = ({ value := 42, version := 7 }, false) :=
  ⟨by decide,
   (C2_mismatch_adopt_retry (fun n => n + 1) 0 42).1
     { value := 0, version := 5 } 7 42 (by decide)⟩

theorem mapSet_keys_mem {H : Type} (l : List (String × H)) (k x : String) (v : H) :
    x ∈ (mapSet l k v).map Prod.fst ↔ x ∈ l.map Prod.fst ∨ x = k := by
  induction l with
  | nil => simp [mapSet]
  | cons p rest ih =>
      rcases p with ⟨k', v'⟩
      by_cases hk : k' = k
      · subst hk
        simp [mapSet]
        tauto
      · simp [mapSet, hk, ih]
        tauto

theorem mapSet_keys_nodup {H : Type} (l : List (String × H)) (k : String) (v : H)
    (h : (l.map Prod.fst).Nodup) : ((mapSet l k v).map Prod.fst).Nodup := by
  induction l with
  | nil => simp [mapSet]
  | cons p rest ih =>
      rcases p with ⟨k', v'⟩
      simp only [List.map_cons, List.nodup_cons] at h
      by_cases hk : k' = k
      · subst hk
        simpa [mapSet] using h
      · simp only [mapSet, if_neg hk, List.map_cons, List.nodup_cons]
        refine ⟨?_, ih h.2⟩
        rw [mapSet_keys_mem]
        rintro (hmem | rfl)
        · exact h.1 hmem
        · exact hk rfl

/-- C6: after a disconnect followed by a reconnect, every handler registered
before the disconnect is announced (`rpc-register` with its scope-prefixed
method name) exactly once — no duplicates, no omissions, nothing else; the
disconnect clears only the live-socket marker and preserves the handler map
(so no caller action is needed), and registration keeps the prefixed method
names duplicate-free, which is what "exactly once" rests on. -/
theorem C6_registration_replay {J R : Type} (m : RpcManager J R)
    (h : (m.handlers.map Prod.fst).Nodup) :
    (onSocketDisconnect m).handlers = m.handlers ∧
    (onSocketDisconnect m).socketLive = false ∧
    (onSocketConnect (onSocketDisconnect m)).2 = m.handlers.map Prod.fst ∧
    (∀ k, k ∈ m.handlers.map Prod.fst →
      List.count k (onSocketConnect (onSocketDisconnect m)).2 = 1) ∧
    (∀ k, k ∈ (onSocketConnect (onSocketDisconnect m)).2 →
      k ∈ m.handlers.map Prod.fst) ∧
    (∀ (method : String) (hf : HandlerFun J R),
      (((registerHandler m method hf).1).handlers.map Prod.fst).Nodup) := by
  refine ⟨rfl, rfl, rfl, ?_, ?_, ?_⟩
  · intro k hk
    exact List.count_eq_one_of_mem h hk
  · intro k hk
    exact hk
  · intro method hf
    exact mapSet_keys_nodup m.handlers (getPrefixedMethod m method) hf h

theorem C6_witness :
    (mgrW.handlers.map Prod.fst).Nodup ∧
    (onSocketConnect (onSocketDisconnect mgrW)).2 = ["s1:a", "s1:b"] ∧
    List.count "s1:a" (onSocketConnect (onSocketDisconnect mgrW)).2 = 1 :=
  ⟨by decide,
   (C6_registration_replay mgrW (by decide)).2.2.1,
   (C6_registration_replay mgrW (by decide)).2.2.2.1 "s1:a" (by decide)⟩
